import Mathlib

set_option maxHeartbeats 1000000
set_option linter.unusedVariables false

namespace Chatbot

open List

/-!
Shallow embedding of the Retrieval & Aggregation Engine of the chatbot
repository: `src/backend/retrieval.py` (entity extraction, semantic
retrieval, aggregation) and `src/backend/chatbot.py` (query classification,
context formatting), with the configuration constants of
`src/backend/config.py`.

The external vector store is modelled as a function `search : Nat → List Doc`
giving, for each requested `k`, the candidate documents returned by
`vectorstore.similarity_search(query, k)`.  The Python `Counter` items are
modelled as the first-seen-ordered association list of distinct values with
their occurrence counts (CPython dicts preserve insertion order);
`Counter.most_common(n)` and `sorted(..., reverse=True)` are both stable
descending sorts by count, modelled with `List.mergeSort`.  Character
classes of the regexes (`\d`, `\w`, `\s`) are modelled over ASCII.
-/

/-- ASCII model of the regex word-character class `\w`. -/
def isWordChar (c : Char) : Bool := c.isAlphanum || c == '_'

/-- ASCII model of the regex whitespace class `\s`. -/
def isSpaceChar (c : Char) : Bool :=
  c == ' ' || c == '\t' || c == '\n' || c == '\r' || c == Char.ofNat 11 || c == Char.ofNat 12

/-- A `\b` word boundary holds before a digit when the preceding character
(if any) is not a word character. -/
def prevOk : Option Char → Bool
  | none => true
  | some p => !isWordChar p

/-- A `\b` word boundary holds after a digit when the following character
(if any) is not a word character. -/
def boundaryHead : List Char → Bool
  | [] => true
  | c :: _ => !isWordChar c

/-- Length of the maximal leading run of ASCII digits. -/
def leadDigits : List Char → Nat
  | [] => 0
  | c :: r => if c.isDigit then leadDigits r + 1 else 0

/-- Whether the optional regex group `(?:-\d{3})\b` matches at the head of
the remaining input. -/
def groupOk : List Char → Bool
  | [] => false
  | c :: r => c == '-' && decide (3 ≤ r.length) && (r.take 3).all Char.isDigit && boundaryHead (r.drop 3)

/-- Length of the match of `\b\d{minLen,10}(?:-\d{3})?\b` anchored at the
current position, given the previous character.  Since `\d{minLen,10}` can
only end at the end of the maximal digit run (a shorter prefix is followed
by a digit, which is a word character, so both the optional group and the
trailing `\b` fail), the backtracking search reduces to: take the full run
`d` (requiring `minLen ≤ d ≤ 10`), then try the group, then the bare
boundary. -/
def matchLenAt (prev : Option Char) (cs : List Char) (minLen : Nat) : Option Nat :=
  if prevOk prev then
    let d := leadDigits cs
    if minLen ≤ d ∧ d ≤ 10 then
      let rest := cs.drop d
      if groupOk rest then some (d + 4)
      else if boundaryHead rest then some d
      else none
    else none
  else none

/-- The `re.findall` scan for `\b\d{7,10}(?:-\d{3})?\b`: at each position try to
match; on success emit the matched text and continue after it, otherwise
advance one character.  The structural fuel argument makes the definition
kernel-reducible; every step consumes at least one character, so any fuel
exceeding the input length gives the same (fuel-independent) result, see
`scanPartsF_fuel`. -/
def scanPartsF : Nat → Option Char → List Char → List String
  | 0, _, _ => []
  | _ + 1, _, [] => []
  | fuel + 1, prev, c :: rest =>
    match matchLenAt prev (c :: rest) 7 with
    | some m =>
      ⟨(c :: rest).take m⟩ :: scanPartsF fuel (((c :: rest).take m).getLastD c) ((c :: rest).drop m)
    | none => scanPartsF fuel (some c) rest

/-- Function `_extract_part_numbers` of `retrieval.py`:
`re.findall` of the pattern `\b\d{7,10}(?:-\d{3})?\b` over the query. -/
def extract_part_numbers (query : String) : List String :=
  scanPartsF (query.toList.length + 1) none query.toList

/-- The `re.search` existence scan for `\b\d{3,10}(?:-\d{3})?\b`. -/
def searchCode : Option Char → List Char → Bool
  | prev, [] => (matchLenAt prev [] 3).isSome
  | prev, c :: rest => (matchLenAt prev (c :: rest) 3).isSome || searchCode (some c) rest

def isPrefixCh : List Char → List Char → Bool
  | [], _ => true
  | _ :: _, [] => false
  | a :: as, b :: bs => a == b && isPrefixCh as bs

def stationLit : List Char := ['s', 't', 'a', 't', 'i', 'o', 'n']

/-- Whether `station\s*\d+` matches at the current position. -/
def stationHere (cs : List Char) : Bool :=
  isPrefixCh stationLit cs &&
    (match (cs.drop 7).dropWhile isSpaceChar with
     | c :: _ => c.isDigit
     | [] => false)

/-- The `re.search` existence scan for `station\s*\d+`. -/
def searchStation : List Char → Bool
  | [] => false
  | c :: rest => stationHere (c :: rest) || searchStation rest

/-- Python substring containment `needle in hay`. -/
def containsCh (needle : List Char) : List Char → Bool
  | [] => needle.isEmpty
  | c :: rest => isPrefixCh needle (c :: rest) || containsCh needle rest

def containsStr (hay needle : String) : Bool := containsCh needle.toList hay.toList

/-- ASCII model of Python `str.lower()`. -/
def pyLower (s : String) : String := ⟨s.data.map Char.toLower⟩

/-- ASCII model of Python `str.strip()`: drop leading and trailing
whitespace. -/
def pyStrip (s : String) : String :=
  ⟨((s.data.dropWhile isSpaceChar).reverse.dropWhile isSpaceChar).reverse⟩

/-- ASCII apostrophe character, used in the keyword list. -/
def aposChar : Char := Char.ofNat 39

/-- The `TECHNICAL_KEYWORDS` list of `chatbot.py`. -/
def TECHNICAL_KEYWORDS : List String :=
  ["failure", "fail", "error", "defect", "issue", "problem", "broken",
   "leak", "test", "station", "code", "serial", "part", "material",
   "action", "fix", "repair", "replace", "malfunction", "fault",
   "overheating", "not working", "doesn" ++ aposChar.toString ++ "t work", "stopped",
   "diagnostic", "troubleshoot", "debug", "ncr", "duplicate",
   "recurring", "reoccurring", "common", "frequent", "match", "using"]

def kwHit (ql : String) : Bool := TECHNICAL_KEYWORDS.any (fun k => containsStr ql k)

def hasCodeSearch (ql : String) : Bool := searchCode none ql.toList

def hasStationSearch (ql : String) : Bool := searchStation ql.toList

/-- Python `s.split()`: whitespace-delimited tokens, empties dropped. -/
def pyTokensAux : List Char → List Char → List (List Char)
  | acc, [] => if acc = [] then [] else [acc.reverse]
  | acc, c :: rest =>
    if isSpaceChar c then
      if acc = [] then pyTokensAux [] rest else acc.reverse :: pyTokensAux [] rest
    else pyTokensAux (c :: acc) rest

def pyTokens (s : String) : List String :=
  (pyTokensAux [] s.data).map (fun t => ⟨t⟩)

/-- Function `is_technical_query` of `chatbot.py`. -/
def is_technical_query (query : String) : Bool :=
  let ql := pyLower query
  if kwHit ql then true
  else if hasCodeSearch ql then true
  else if hasStationSearch ql then true
  else if (pyTokens query).length < 3 then false
  else false

/-! ### Configuration constants (`config.py`) -/

def TOP_N_DOCS : Nat := 30

def TOP_K : Nat := 3

/-! ### Records and sentinel normalization -/

/-- The metadata of one indexed document (`doc.metadata` in `retrieval.py`):
each field is either absent (`none`, covering Python `None`/NaN) or a raw
string value. -/
structure Doc where
  part_number : Option String
  action_code : Option String
  failure_code : Option String
  stationnumber : Option String
  material_code : Option String
  material_desc : Option String
  partclass : Option String
  serialnumber : Option String
  date : Option String
deriving DecidableEq

/-- Function `_clean_value` of `retrieval.py`: `None`/NaN and the literal text "nan"
(any case, checked before stripping) become the empty string; otherwise the
value is stripped. -/
def cleanValue : Option String → String
  | none => ""
  | some s => if pyLower s = "nan" then "" else pyStrip s

/-- Collect the cleaned, non-empty values of one metadata field across the
candidate documents, in candidate order (the per-field `for doc in results`
collection loops of `retrieve_semantic`). -/
def fieldValues (f : Doc → Option String) (docs : List Doc) : List String :=
  docs.filterMap (fun d => let v := cleanValue (f d); if v = "" then none else some v)

def actionValues (docs : List Doc) : List String := fieldValues (fun d => d.action_code) docs

def failureValues (docs : List Doc) : List String := fieldValues (fun d => d.failure_code) docs

def stationValues (docs : List Doc) : List String := fieldValues (fun d => d.stationnumber) docs

def serialValues (docs : List Doc) : List String := fieldValues (fun d => d.serialnumber) docs

def matValues (docs : List Doc) : List String := fieldValues (fun d => d.material_code) docs

def dateValues (docs : List Doc) : List String := fieldValues (fun d => d.date) docs

/-! ### Counters and stable descending ranking -/

/-- Distinct values of a list in first-seen order (insertion order of a
CPython dict/`Counter` built from the list). -/
def firstSeen : List String → List String
  | [] => []
  | x :: xs => x :: (firstSeen xs).filter (fun y => y ≠ x)

/-- Model of `Counter(l).items()`: distinct values in first-seen order, each with its
occurrence count. -/
def counterItems (l : List String) : List (String × Nat) :=
  (firstSeen l).map (fun c => (c, l.count c))

/-- Stable insertion of `x` (an element earlier in the original list than
everything in the already-sorted tail) into a descending-sorted list:
`x` goes before the first element whose key is `≤` its own. -/
def insertDesc (f : α → Nat) (x : α) : List α → List α
  | [] => [x]
  | y :: ys => if f y ≤ f x then x :: y :: ys else y :: insertDesc f x ys

/-- Stable descending sort by the key `f`.  A stable sort is extensionally
unique, so this models both `Counter.most_common` (via `heapq.nlargest`,
documented stable) and the stable Python `sorted(..., reverse=True)`. -/
def sortDesc (f : α → Nat) : List α → List α
  | [] => []
  | x :: xs => insertDesc f x (sortDesc f xs)

/-- Model of `Counter(vals).most_common(k)`: stable descending sort by count,
truncated to `k`. -/
def rankedPairs (vals : List String) (k : Nat) : List (String × Nat) :=
  (sortDesc Prod.snd (counterItems vals)).take k

/-! ### Material details (`material_details` dict of `retrieve_semantic`) -/

structure MatDetail where
  code : String
  description : String
  part_class : String
  count : Nat
deriving DecidableEq

/-- One step of the material-collection loop: skip an absent material code;
otherwise bump the count of an already-seen code, or insert a new entry with
description and part class defaulted to "N/A" when absent and count 1. -/
def matStep (acc : List MatDetail) (d : Doc) : List MatDetail :=
  let mc := cleanValue d.material_code
  if mc = "" then acc
  else if acc.any (fun m => m.code == mc) then
    acc.map (fun m => if m.code = mc then ⟨m.code, m.description, m.part_class, m.count + 1⟩ else m)
  else
    let md := cleanValue d.material_desc
    let pc := cleanValue d.partclass
    acc ++ [⟨mc, if md = "" then "N/A" else md, if pc = "" then "N/A" else pc, 1⟩]

def material_details (docs : List Doc) : List MatDetail := docs.foldl matStep []

/-- Model of `sorted(material_details.values(), key=count, reverse=True)[:TOP_K]`. -/
def rankedMaterials (docs : List Doc) : List MatDetail :=
  (sortDesc MatDetail.count (material_details docs)).take TOP_K

/-- Recurring serials: `most_common(10)` then keep only counts `> 1`. -/
def recurringPairs (serials : List String) : List (String × Nat) :=
  ((sortDesc Prod.snd (counterItems serials)).take 10).filter (fun p => decide (1 < p.2))

/-! ### Date range (Python `min`/`max` over date strings) -/

def chLe : List Char → List Char → Bool
  | [], _ => true
  | _ :: _, [] => false
  | a :: as, b :: bs => if a < b then true else if b < a then false else chLe as bs

def strLe (a b : String) : Bool := chLe a.toList b.toList

def pyMin : List String → Option String
  | [] => none
  | x :: xs => some (xs.foldl (fun acc y => if strLe acc y then acc else y) x)

def pyMax : List String → Option String
  | [] => none
  | x :: xs => some (xs.foldl (fun acc y => if strLe y acc then acc else y) x)

/-! ### The retrieval output object -/

/-- A ranked-category entry: either a code-or-serial/count dict or an
explicit note marker dict. -/
inductive Entry
  | item : String → Nat → Entry
  | note : String → Entry
deriving DecidableEq

/-- A materials entry: a full `material_details` dict or an explicit note
marker dict. -/
inductive MatEntry
  | detail : MatDetail → MatEntry
  | note : String → MatEntry
deriving DecidableEq

/-- The dictionary returned by `retrieve_semantic`.  `Option` fields model
keys that are absent on one of the two return paths (`none` = key absent). -/
structure RetrievalResult where
  message : Option String
  retrieved_count : Option Nat
  query_context : String
  mentioned_parts : Option (List String)
  action_codes : List Entry
  failure_codes : List Entry
  materials : List MatEntry
  recurring_serials : List Entry
  common_stations : Option (List (String × Nat))
  date_range : Option (String × String)
deriving DecidableEq

/-! ### Candidate selection and retrieval -/

/-- The part-number filter: keep candidates whose cleaned `part_number`
contains some mentioned part number as a substring. -/
def partFilter (parts : List String) (docs : List Doc) : List Doc :=
  docs.filter (fun d => parts.any (fun p => containsStr (cleanValue d.part_number) p))

/-- Candidate selection of `retrieve_semantic`: with mentioned parts, use
the filtered candidates if any and otherwise fall back to the unfiltered
list truncated to `top_n`; with no mentioned parts, truncate to `top_n`. -/
def selectCandidates (parts : List String) (results : List Doc) (top_n : Nat) : List Doc :=
  if parts ≠ [] then
    let filtered := partFilter parts results
    if filtered ≠ [] then filtered else results.take top_n
  else results.take top_n

/-- Overfetch size: `top_n * 3` if part numbers were mentioned, else
`top_n * 2`. -/
def search_k (query : String) (top_n : Nat) : Nat :=
  if extract_part_numbers query ≠ [] then top_n * 3 else top_n * 2

/-- Everything `retrieve_semantic` does after the k-NN search, given the
raw search results. -/
def retrieveFrom (query : String) (results0 : List Doc) : RetrievalResult :=
  let mentioned := extract_part_numbers query
  if results0 = [] then
    { message := some "No relevant historical data found.",
      retrieved_count := none,
      query_context := query,
      mentioned_parts := none,
      action_codes := [],
      failure_codes := [],
      materials := [],
      recurring_serials := [],
      common_stations := none,
      date_range := none }
  else
    let results := selectCandidates mentioned results0 TOP_N_DOCS
    let topActions := rankedPairs (actionValues results) TOP_K
    let topFailures := rankedPairs (failureValues results) TOP_K
    let sortedMaterials := rankedMaterials results
    let recurring := recurringPairs (serialValues results)
    let topStations := rankedPairs (stationValues results) 3
    let dates := dateValues results
    { message := none,
      retrieved_count := some results.length,
      query_context := query,
      mentioned_parts := some mentioned,
      action_codes :=
        if topActions = [] then [Entry.note "No action codes found"]
        else topActions.map (fun p => Entry.item p.1 p.2),
      failure_codes :=
        if topFailures = [] then [Entry.note "No failure codes found"]
        else topFailures.map (fun p => Entry.item p.1 p.2),
      materials :=
        if sortedMaterials = [] then [MatEntry.note "No materials recorded"]
        else sortedMaterials.map MatEntry.detail,
      recurring_serials :=
        if recurring = [] then [Entry.note "No recurring serials detected"]
        else recurring.map (fun p => Entry.item p.1 p.2),
      common_stations := some topStations,
      date_range := some ((pyMin dates).getD "N/A", (pyMax dates).getD "N/A") }

/-- Function `retrieve_semantic` of `retrieval.py`, with the vector store abstracted
as `search : k ↦ results of similarity_search(query, k)` and
`top_n = TOP_N_DOCS`.  Total by construction: no input raises. -/
def retrieve_semantic (query : String) (search : Nat → List Doc) : RetrievalResult :=
  retrieveFrom query (search (search_k query TOP_N_DOCS))

/-! ### Context formatter (`format_context_for_llm` of `chatbot.py`)

The `database_stats` section is skipped: `retrieve_semantic` never puts a
`database_stats` key into the dict it returns (nor does any caller), so
the lookup of that key always falls back to the empty dict.  Rendering a `note` entry
inside a list whose head is an `item`/`detail` entry would raise `KeyError`
in Python; such heterogeneous lists are never produced by
`retrieve_semantic`, and the model renders the note text there. -/

def renderCode (e : Entry) : String :=
  match e with
  | Entry.item c n => "  • " ++ c ++ " (seen " ++ toString n ++ "x in analyzed records)"
  | Entry.note s => s

def renderSerial (e : Entry) : String :=
  match e with
  | Entry.item s n => "  • Serial " ++ s ++ " appeared " ++ toString n ++ "x"
  | Entry.note s => s

def renderMaterial (m : MatEntry) : List String :=
  match m with
  | MatEntry.detail d =>
    ["  • Material Code: " ++ d.code] ++
      (if d.description ≠ "N/A" then ["    Description: " ++ d.description] else []) ++
      ["    Part Class: " ++ d.part_class,
       "    Seen " ++ toString d.count ++ "x in analyzed records"]
  | MatEntry.note s => [s]

def renderStation (p : String × Nat) : String :=
  "  • Station " ++ p.1 ++ " (" ++ toString p.2 ++ "x)"

/-- The `parts` list built by `format_context_for_llm`, in order. -/
def formatParts (agg : RetrievalResult) : List String :=
  ["USER QUERY: " ++ agg.query_context,
   "\nSEMANTIC SEARCH ANALYZED: " ++ toString (agg.retrieved_count.getD 0) ++
     " most relevant records",
   "\n---DATA FROM SEMANTIC SEARCH---\n",
   "MOST COMMON ACTION CODES (in analyzed subset):"] ++
  (match agg.action_codes with
   | Entry.item c n :: _ => agg.action_codes.map renderCode
   | _ => ["  • No action codes found"]) ++
  (match agg.failure_codes with
   | Entry.item c n :: _ =>
     "\nFAILURE CODES (in analyzed subset):" :: agg.failure_codes.map renderCode
   | _ => []) ++
  ["\nMATERIALS (in analyzed subset):"] ++
  (match agg.materials with
   | MatEntry.detail d :: _ => (agg.materials.map renderMaterial).flatten
   | _ => ["  • No materials recorded"]) ++
  (match agg.recurring_serials with
   | Entry.item s n :: _ =>
     "\nRECURRING SERIALS (in analyzed subset):" :: agg.recurring_serials.map renderSerial
   | _ => []) ++
  (match agg.common_stations with
   | some (p :: ps) => "\nCOMMON STATIONS:" :: (p :: ps).map renderStation
   | _ => []) ++
  (match agg.date_range with
   | some (e, l) => ["\nDATE RANGE: " ++ e ++ " to " ++ l]
   | none => [])

/-- Function `format_context_for_llm`: the parts joined with newlines. -/
def format_context_for_llm (agg : RetrievalResult) : String :=
  String.intercalate "\n" (formatParts agg)

/-- Candidate documents passed to the aggregation loops, as selected by
`retrieve_semantic` from the raw k-NN results. -/
def usedCandidates (query : String) (results0 : List Doc) : List Doc :=
  selectCandidates (extract_part_numbers query) results0 TOP_N_DOCS

/-- A document with every metadata field absent. -/
def emptyDoc : Doc := ⟨none, none, none, none, none, none, none, none, none⟩

/-- A document carrying only an action code. -/
def docA (s : String) : Doc := ⟨none, some s, none, none, none, none, none, none, none⟩

/-- A document carrying only a serial number. -/
def docS (s : String) : Doc := ⟨none, none, none, none, none, none, none, some s, none⟩

/-- A document carrying only a part number. -/
def partDoc : Doc := ⟨some "10003939", none, none, none, none, none, none, none, none⟩

/-- Four candidates with two action codes of equal count, first seen in the
order A1, A2. -/
def docsTie : List Doc := [docA "A1", docA "A2", docA "A2", docA "A1"]

/-- Five candidates: serial S1 appears twice, S2/S3/S4 once each. -/
def exDocs5 : List Doc := [docS "S1", docS "S2", docS "S1", docS "S3", docS "S4"]

/-- The shape required of a part number by the spec: a run of 7–10 digits,
optionally followed by a dash and exactly three digits. -/
def partShape (s : String) : Prop :=
  (7 ≤ s.data.length ∧ s.data.length ≤ 10 ∧ ∀ c ∈ s.data, c.isDigit) ∨
  (∃ k, 7 ≤ k ∧ k ≤ 10 ∧ s.data.length = k + 4 ∧
    (∀ c ∈ s.data.take k, c.isDigit) ∧ (s.data.drop k).head? = some '-' ∧
    ∀ c ∈ s.data.drop (k + 1), c.isDigit)

/-! ## Lemmas: stable descending insertion sort -/

theorem insertDesc_perm (f : α → Nat) (x : α) (l : List α) :
    insertDesc f x l ~ x :: l := by
  induction l with
  | nil => exact List.Perm.refl _
  | cons y ys ih =>
    simp only [insertDesc]
    split
    · exact List.Perm.refl _
    · exact (ih.cons y).trans (List.Perm.swap x y ys)

theorem sortDesc_perm (f : α → Nat) (l : List α) : sortDesc f l ~ l := by
  induction l with
  | nil => exact List.Perm.refl _
  | cons x xs ih => exact (insertDesc_perm f x _).trans (ih.cons x)

theorem mem_sortDesc {f : α → Nat} {l : List α} {a : α} :
    a ∈ sortDesc f l ↔ a ∈ l :=
  (sortDesc_perm f l).mem_iff

theorem insertDesc_pairwise (f : α → Nat) (x : α) {l : List α}
    (h : l.Pairwise (fun a b => f b ≤ f a)) :
    (insertDesc f x l).Pairwise (fun a b => f b ≤ f a) := by
  induction l with
  | nil => simp [insertDesc]
  | cons y ys ih =>
    rw [List.pairwise_cons] at h
    obtain ⟨hy, hys⟩ := h
    simp only [insertDesc]
    split
    · rename_i hle
      refine List.pairwise_cons.mpr ⟨?_, List.pairwise_cons.mpr ⟨hy, hys⟩⟩
      intro z hz
      rcases List.mem_cons.mp hz with rfl | hz
      · exact hle
      · exact le_trans (hy z hz) hle
    · rename_i hgt
      push_neg at hgt
      refine List.pairwise_cons.mpr ⟨?_, ih hys⟩
      intro z hz
      rcases List.mem_cons.mp ((insertDesc_perm f x ys).mem_iff.mp hz) with rfl | hz'
      · exact le_of_lt hgt
      · exact hy z hz'

theorem sortDesc_pairwise (f : α → Nat) (l : List α) :
    (sortDesc f l).Pairwise (fun a b => f b ≤ f a) := by
  induction l with
  | nil => simp [sortDesc]
  | cons x xs ih => exact insertDesc_pairwise f x ih

theorem sublist_insertDesc (f : α → Nat) (x : α) (l : List α) :
    l <+ insertDesc f x l := by
  induction l with
  | nil => simp [insertDesc]
  | cons y ys ih =>
    simp only [insertDesc]
    split
    · exact List.sublist_cons_self x (y :: ys)
    · exact ih.cons₂ y

theorem pair_sublist_insertDesc_of_mem (f : α → Nat) {a b : α} {l : List α}
    (hb : b ∈ l) (hba : f b ≤ f a) : [a, b] <+ insertDesc f a l := by
  induction l with
  | nil => cases hb
  | cons y ys ih =>
    simp only [insertDesc]
    split
    · exact (List.singleton_sublist.mpr hb).cons₂ a
    · rename_i hgt
      push_neg at hgt
      rcases List.mem_cons.mp hb with rfl | hb'
      · omega
      · exact (ih hb').cons y

/-- Stability of the sort: a pair in weakly descending key order keeps its
relative order. -/
theorem pair_sublist_sortDesc (f : α → Nat) {a b : α} {l : List α}
    (h : [a, b] <+ l) (hba : f b ≤ f a) : [a, b] <+ sortDesc f l := by
  induction l with
  | nil => cases h
  | cons x xs ih =>
    cases h with
    | cons _ h' => exact (ih h').trans (sublist_insertDesc f x _)
    | cons₂ _ h' =>
      exact pair_sublist_insertDesc_of_mem f
        ((sortDesc_perm f xs).mem_iff.mpr (List.singleton_sublist.mp h')) hba

/-! ## Lemmas: relative order of two distinct members of a list -/

theorem pair_sublist_total {l : List α} {a b : α} (ha : a ∈ l) (hb : b ∈ l)
    (hab : a ≠ b) : [a, b] <+ l ∨ [b, a] <+ l := by
  induction l with
  | nil => cases ha
  | cons x t ih =>
    rcases List.mem_cons.mp ha with rfl | ha'
    · have hb' : b ∈ t := by
        rcases List.mem_cons.mp hb with rfl | hb'
        · exact absurd rfl hab
        · exact hb'
      exact Or.inl ((List.singleton_sublist.mpr hb').cons₂ a)
    · rcases List.mem_cons.mp hb with rfl | hb'
      · exact Or.inr ((List.singleton_sublist.mpr ha').cons₂ b)
      · rcases ih ha' hb' with h | h
        · exact Or.inl (h.cons x)
        · exact Or.inr (h.cons x)

theorem not_pair_sublist_both {l : List α} (hnd : l.Nodup) {a b : α} (hab : a ≠ b)
    (h1 : [a, b] <+ l) (h2 : [b, a] <+ l) : False := by
  induction l with
  | nil => cases h1
  | cons x t ih =>
    rw [List.nodup_cons] at hnd
    obtain ⟨hx, hnd'⟩ := hnd
    cases h1 with
    | cons _ h1' =>
      cases h2 with
      | cons _ h2' => exact ih hnd' h1' h2'
      | cons₂ _ h2' => exact hx (h1'.subset (by simp))
    | cons₂ _ h1' =>
      cases h2 with
      | cons _ h2' => exact hx (h2'.subset (by simp))
      | cons₂ _ h2' => exact hab rfl

/-! ## Lemmas: first-seen order and counters -/

theorem mem_firstSeen {l : List String} {a : String} : a ∈ firstSeen l ↔ a ∈ l := by
  induction l with
  | nil => simp [firstSeen]
  | cons x xs ih =>
    simp only [firstSeen, List.mem_cons, List.mem_filter]
    constructor
    · rintro (rfl | ⟨h, _⟩)
      · exact Or.inl rfl
      · exact Or.inr (ih.mp h)
    · rintro (rfl | h)
      · exact Or.inl rfl
      · by_cases hax : a = x
        · exact Or.inl hax
        · exact Or.inr ⟨ih.mpr h, by simp [hax]⟩

theorem firstSeen_nodup (l : List String) : (firstSeen l).Nodup := by
  induction l with
  | nil => simp [firstSeen]
  | cons x xs ih =>
    simp only [firstSeen]
    rw [List.nodup_cons]
    refine ⟨?_, ih.filter _⟩
    intro hx
    have := (List.mem_filter.mp hx).2
    simp at this

/-- The first-seen list is strictly sorted by index of first occurrence. -/
theorem firstSeen_pairwise_indexOf (l : List String) :
    (firstSeen l).Pairwise (fun a b => l.indexOf a < l.indexOf b) := by
  induction l with
  | nil => simp [firstSeen]
  | cons x xs ih =>
    simp only [firstSeen]
    rw [List.pairwise_cons]
    constructor
    · intro b hb
      have hbx : b ≠ x := by
        have := (List.mem_filter.mp hb).2
        simpa using this
      rw [List.indexOf_cons_self, List.indexOf_cons_ne _ (Ne.symm hbx)]
      exact Nat.succ_pos _
    · refine (ih.filter _).imp_of_mem ?_
      intro a b ha hb hab
      have hax : a ≠ x := by
        have := (List.mem_filter.mp ha).2
        simpa using this
      have hbx : b ≠ x := by
        have := (List.mem_filter.mp hb).2
        simpa using this
      rw [List.indexOf_cons_ne _ (Ne.symm hax), List.indexOf_cons_ne _ (Ne.symm hbx)]
      omega

theorem counterItems_map_fst (l : List String) :
    (counterItems l).map Prod.fst = firstSeen l := by
  simp only [counterItems, List.map_map]
  exact List.map_id _

theorem counterItems_nodup (l : List String) : (counterItems l).Nodup := by
  refine List.Nodup.map ?_ (firstSeen_nodup l)
  intro a b hab
  simpa using congrArg Prod.fst hab

theorem counterItems_count {l : List String} {p : String × Nat}
    (hp : p ∈ counterItems l) : p.2 = l.count p.1 ∧ p.1 ∈ l := by
  simp only [counterItems, List.mem_map] at hp
  obtain ⟨c, hc, rfl⟩ := hp
  exact ⟨rfl, mem_firstSeen.mp hc⟩

theorem counterItems_complete {l : List String} {s : String} (hs : s ∈ l) :
    (s, l.count s) ∈ counterItems l :=
  List.mem_map_of_mem _ (mem_firstSeen.mpr hs)

/-! ## Lemmas: truncated stable sorts of duplicate-free lists -/

/-- On a duplicate-free input, a tie in the sort key in the truncated sorted
output reflects the input order of the two entries. -/
theorem sortDesc_take_tie {α : Type} (f : α → Nat) {l : List α} (hnd : l.Nodup)
    {k : Nat} {a b : α} (hab : [a, b] <+ (sortDesc f l).take k) (heq : f a = f b) :
    [a, b] <+ l := by
  have hsorted : [a, b] <+ sortDesc f l := hab.trans (List.take_sublist k _)
  have hnds : (sortDesc f l).Nodup := hnd.perm (sortDesc_perm f l).symm
  have hne : a ≠ b := by
    rintro rfl
    exact (List.nodup_iff_sublist.mp hnds a) hsorted
  have ha : a ∈ l := (sortDesc_perm f l).subset (hsorted.subset (by simp))
  have hb : b ∈ l := (sortDesc_perm f l).subset (hsorted.subset (by simp))
  rcases pair_sublist_total ha hb hne with h | h
  · exact h
  · exact absurd (pair_sublist_sortDesc f h (le_of_eq heq)) fun hba =>
      not_pair_sublist_both hnds hne hsorted hba

theorem rankedPairs_spec (vals : List String) (k : Nat) :
    (rankedPairs vals k).length ≤ k ∧
    (rankedPairs vals k).Pairwise (fun a b => b.2 ≤ a.2) ∧
    (∀ p ∈ rankedPairs vals k, p.2 = vals.count p.1 ∧ p.1 ∈ vals) ∧
    (∀ a b, [a, b] <+ rankedPairs vals k → a.2 = b.2 →
      vals.indexOf a.1 < vals.indexOf b.1) := by
  refine ⟨List.length_take_le _ _, ?_, ?_, ?_⟩
  · exact (sortDesc_pairwise Prod.snd _).sublist (List.take_sublist _ _)
  · intro p hp
    exact counterItems_count
      ((sortDesc_perm Prod.snd _).subset ((List.take_sublist _ _).subset hp))
  · intro a b hab heq
    have hctr : [a, b] <+ counterItems vals :=
      sortDesc_take_tie Prod.snd (counterItems_nodup vals) hab heq
    have hfs : [a.1, b.1] <+ firstSeen vals := by
      have := hctr.map Prod.fst
      rwa [counterItems_map_fst] at this
    have := (firstSeen_pairwise_indexOf vals).sublist hfs
    rw [List.pairwise_cons] at this
    exact this.1 b.1 (by simp)

/-! ## Lemmas: truncation and threshold filters commute on sorted lists -/

/-- In a descending-sorted list, elements above a threshold form a prefix,
so `take` and the threshold filter commute. -/
theorem take_filter_of_sortedDesc (f : α → Nat) (t : Nat) :
    ∀ (l : List α), l.Pairwise (fun a b => f b ≤ f a) → ∀ n,
      (l.take n).filter (fun x => decide (t < f x)) =
        (l.filter (fun x => decide (t < f x))).take n := by
  intro l
  induction l with
  | nil => intro _ n; simp
  | cons x xs ih =>
    intro h n
    rw [List.pairwise_cons] at h
    obtain ⟨hx, hxs⟩ := h
    cases n with
    | zero => simp
    | succ n =>
      by_cases hpx : t < f x
      · rw [List.take_succ_cons, List.filter_cons_of_pos (by simpa using hpx),
          List.filter_cons_of_pos (by simpa using hpx), List.take_succ_cons, ih hxs n]
      · rw [List.take_succ_cons, List.filter_cons_of_neg (by simpa using hpx),
          List.filter_cons_of_neg (by simpa using hpx)]
        have hnil1 : (xs.take n).filter (fun x => decide (t < f x)) = [] := by
          rw [List.filter_eq_nil_iff]
          intro y hy
          have := hx y ((List.take_sublist n xs).subset hy)
          simp only [decide_eq_true_eq]
          omega
        have hnil2 : xs.filter (fun x => decide (t < f x)) = [] := by
          rw [List.filter_eq_nil_iff]
          intro y hy
          have := hx y hy
          simp only [decide_eq_true_eq]
          omega
        rw [hnil1, hnil2, List.take_nil]

/-! ## Lemmas: the material-details fold -/

theorem firstSeen_append_singleton (l : List String) (x : String) :
    firstSeen (l ++ [x]) = if x ∈ l then firstSeen l else firstSeen l ++ [x] := by
  induction l with
  | nil => simp [firstSeen]
  | cons y ys ih =>
    simp only [List.cons_append, firstSeen, List.append_eq]
    rw [ih]
    by_cases hxys : x ∈ ys
    · rw [if_pos hxys, if_pos (List.mem_cons.mpr (Or.inr hxys))]
    · by_cases hxy : x = y
      · subst hxy
        rw [if_neg hxys, if_pos (List.mem_cons_self x ys), List.filter_append]
        simp
      · rw [if_neg hxys, if_neg (by simp [hxy, hxys]), List.filter_append]
        simp [hxy]

theorem matValues_cons (d : Doc) (ds : List Doc) :
    matValues (d :: ds) =
      (if cleanValue d.material_code = "" then [] else [cleanValue d.material_code]) ++
        matValues ds := by
  by_cases h : cleanValue d.material_code = "" <;>
    simp [matValues, fieldValues, h]

theorem matFold_inv : ∀ (docs : List Doc) (acc : List MatDetail) (vals : List String),
    acc.map MatDetail.code = firstSeen vals →
    (∀ m ∈ acc, m.count = vals.count m.code) →
    ((docs.foldl matStep acc).map MatDetail.code = firstSeen (vals ++ matValues docs) ∧
     ∀ m ∈ docs.foldl matStep acc, m.count = (vals ++ matValues docs).count m.code) := by
  intro docs
  induction docs with
  | nil =>
    intro acc vals h1 h2
    constructor
    · simpa [matValues, fieldValues] using h1
    · simpa [matValues, fieldValues] using h2
  | cons d ds ih =>
    intro acc vals h1 h2
    rw [List.foldl_cons]
    by_cases hmc : cleanValue d.material_code = ""
    · have hstep : matStep acc d = acc := by simp [matStep, hmc]
      rw [hstep, matValues_cons, if_pos hmc, List.nil_append]
      exact ih acc vals h1 h2
    · set mc := cleanValue d.material_code with hmcdef
      have hsplit : vals ++ matValues (d :: ds) = (vals ++ [mc]) ++ matValues ds := by
        rw [matValues_cons, if_neg hmc, List.append_assoc]
      rw [hsplit]
      by_cases hin : acc.any (fun m => m.code == mc) = true
      · -- the code was already seen: bump its count
        have hstep : matStep acc d =
            acc.map (fun m =>
              if m.code = mc then ⟨m.code, m.description, m.part_class, m.count + 1⟩ else m) := by
          simp only [matStep, ← hmcdef, if_neg hmc, hin, if_pos]
        have hmemfs : mc ∈ acc.map MatDetail.code := by
          rcases List.any_eq_true.mp hin with ⟨m, hm, hcode⟩
          exact (beq_iff_eq.mp hcode) ▸ List.mem_map_of_mem _ hm
        have hmem : mc ∈ vals := mem_firstSeen.mp (h1 ▸ hmemfs)
        rw [hstep]
        refine ih _ (vals ++ [mc]) ?_ ?_
        · rw [List.map_map]
          have hcodes : acc.map (MatDetail.code ∘ fun m =>
              if m.code = mc then ⟨m.code, m.description, m.part_class, m.count + 1⟩ else m) =
              acc.map MatDetail.code := by
            refine List.map_congr_left ?_
            intro m hm
            by_cases h : m.code = mc <;> simp [Function.comp, h]
          rw [hcodes, h1, firstSeen_append_singleton, if_pos hmem]
        · intro m' hm'
          rcases List.mem_map.mp hm' with ⟨m, hm, rfl⟩
          by_cases h : m.code = mc
          · simp only [if_pos h]
            rw [List.count_append, h2 m hm, h]
            simp
          · simp only [if_neg h]
            rw [List.count_append, h2 m hm, List.count_cons, List.count_nil]
            have : mc ≠ m.code := Ne.symm h
            simp [this]
      · -- a new code: append a fresh entry with count 1
        have hstep : matStep acc d =
            acc ++ [⟨mc, if cleanValue d.material_desc = "" then "N/A" else cleanValue d.material_desc,
                     if cleanValue d.partclass = "" then "N/A" else cleanValue d.partclass, 1⟩] := by
          simp only [matStep, ← hmcdef, if_neg hmc, if_neg hin]
        have hninfs : mc ∉ acc.map MatDetail.code := by
          intro hctr
          rcases List.mem_map.mp hctr with ⟨m, hm, hcode⟩
          exact hin (List.any_eq_true.mpr ⟨m, hm, beq_iff_eq.mpr hcode⟩)
        have hnin : mc ∉ vals := fun hctr => hninfs (h1 ▸ mem_firstSeen.mpr hctr)
        rw [hstep]
        refine ih _ (vals ++ [mc]) ?_ ?_
        · rw [List.map_append, h1, firstSeen_append_singleton, if_neg hnin]
          rfl
        · intro m' hm'
          rcases List.mem_append.mp hm' with hm | hm
          · have hne : mc ≠ m'.code := fun hctr =>
              hninfs (hctr ▸ List.mem_map_of_mem _ hm)
            rw [List.count_append, h2 m' hm, List.count_cons, List.count_nil]
            simp [hne]
          · rcases List.mem_singleton.mp hm with rfl
            rw [List.count_append, List.count_cons, List.count_nil]
            have : vals.count mc = 0 := by
              rw [List.count_eq_zero]
              exact hnin
            simp [this]

theorem material_details_inv (docs : List Doc) :
    (material_details docs).map MatDetail.code = firstSeen (matValues docs) ∧
    ∀ m ∈ material_details docs, m.count = (matValues docs).count m.code := by
  have := matFold_inv docs [] []
    (by simp [firstSeen]) (by simp)
  simpa [material_details] using this

theorem material_details_nodup (docs : List Doc) : (material_details docs).Nodup := by
  have h := (material_details_inv docs).1
  have : ((material_details docs).map MatDetail.code).Nodup := by
    rw [h]; exact firstSeen_nodup _
  exact this.of_map

/-! ## Lemmas: shape of extracted part numbers -/

theorem matchLenAt_min {prev : Option Char} {cs : List Char} {minLen m : Nat}
    (hm : matchLenAt prev cs minLen = some m) : minLen ≤ m := by
  simp only [matchLenAt] at hm
  split at hm
  · split at hm
    · split at hm
      · rename_i h _
        cases hm
        omega
      · split at hm
        · rename_i h _ _
          cases hm
          exact h.1
        · cases hm
    · cases hm
  · cases hm

theorem scanPartsF_fuel : ∀ (n n' : Nat) (prev : Option Char) (cs : List Char),
    cs.length < n → cs.length < n' → scanPartsF n prev cs = scanPartsF n' prev cs := by
  intro n
  induction n with
  | zero => intro n' prev cs h h'; omega
  | succ n ih =>
    intro n' prev cs h h'
    cases cs with
    | nil =>
      cases n' with
      | zero => omega
      | succ n' => rfl
    | cons c rest =>
      cases n' with
      | zero => omega
      | succ n' =>
        cases hm : matchLenAt prev (c :: rest) 7 with
        | none =>
          simp only [scanPartsF, hm]
          exact ih n' (some c) rest (by simp at h; omega) (by simp at h'; omega)
        | some m =>
          have h7 := matchLenAt_min hm
          simp only [scanPartsF, hm]
          rw [ih n' _ _ (by simp at h ⊢; omega) (by simp at h' ⊢; omega)]


theorem leadDigits_le_length : ∀ cs : List Char, leadDigits cs ≤ cs.length := by
  intro cs
  induction cs with
  | nil => simp [leadDigits]
  | cons c r ih =>
    simp only [leadDigits]
    split
    · simpa using ih
    · simp

theorem take_leadDigits_isDigit :
    ∀ cs : List Char, ∀ c ∈ cs.take (leadDigits cs), c.isDigit := by
  intro cs
  induction cs with
  | nil => simp
  | cons c r ih =>
    simp only [leadDigits]
    split
    · rename_i hd
      intro c' hc'
      rw [List.take_succ_cons] at hc'
      rcases List.mem_cons.mp hc' with rfl | hc'
      · exact hd
      · exact ih c' hc'
    · simp

theorem matchLenAt_cases {prev : Option Char} {cs : List Char} {minLen m : Nat}
    (hm : matchLenAt prev cs minLen = some m) :
    (m = leadDigits cs ∧ minLen ≤ m ∧ m ≤ 10) ∨
    (m = leadDigits cs + 4 ∧ minLen ≤ leadDigits cs ∧ leadDigits cs ≤ 10 ∧
      groupOk (cs.drop (leadDigits cs)) = true) := by
  simp only [matchLenAt] at hm
  split at hm
  · split at hm
    · rename_i hd
      split at hm
      · rename_i hg
        cases hm
        exact Or.inr ⟨rfl, hd.1, hd.2, hg⟩
      · split at hm
        · cases hm
          exact Or.inl ⟨rfl, hd.1, hd.2⟩
        · cases hm
    · cases hm
  · cases hm

theorem matchLenAt_shape {prev : Option Char} {cs : List Char} {m : Nat}
    (hm : matchLenAt prev cs 7 = some m) : partShape ⟨cs.take m⟩ := by
  rcases matchLenAt_cases hm with ⟨rfl, h7, h10⟩ | ⟨rfl, h7, h10, hg⟩
  · left
    have hdlen : leadDigits cs ≤ cs.length := leadDigits_le_length cs
    refine ⟨?_, ?_, ?_⟩
    · simp only [List.length_take]
      omega
    · simp only [List.length_take]
      omega
    · exact fun c hc => take_leadDigits_isDigit cs c hc
  · right
    cases hdrop : cs.drop (leadDigits cs) with
    | nil => rw [hdrop] at hg; simp [groupOk] at hg
    | cons c r =>
      rw [hdrop] at hg
      simp only [groupOk, Bool.and_eq_true, beq_iff_eq, decide_eq_true_eq] at hg
      obtain ⟨⟨⟨hc, hr3⟩, hdig⟩, hb⟩ := hg
      subst hc
      have hlen : cs.length = leadDigits cs + 1 + r.length := by
        have h1 : (cs.drop (leadDigits cs)).length = cs.length - leadDigits cs := by
          simp [List.length_drop]
        rw [hdrop] at h1
        have := leadDigits_le_length cs
        simp at h1
        omega
      refine ⟨leadDigits cs, h7, h10, ?_, ?_, ?_, ?_⟩
      · simp only [List.length_take]
        omega
      · intro c' hc'
        rw [List.take_take] at hc'
        have : min (leadDigits cs) (leadDigits cs + 4) = leadDigits cs := by omega
        rw [this] at hc'
        exact take_leadDigits_isDigit cs c' hc'
      · rw [List.drop_take]
        have h4 : leadDigits cs + 4 - leadDigits cs = 4 := by omega
        rw [h4, hdrop]
        simp
      · intro c' hc'
        rw [List.drop_take] at hc'
        have h3 : leadDigits cs + 4 - (leadDigits cs + 1) = 3 := by omega
        rw [h3] at hc'
        have hdrop1 : cs.drop (leadDigits cs + 1) = r := by
          have : cs.drop (leadDigits cs + 1) = (cs.drop (leadDigits cs)).drop 1 := by
            rw [List.drop_drop]
          rw [this, hdrop]
          simp
        rw [hdrop1] at hc'
        have := List.all_eq_true.mp hdig c' hc'
        simpa using this

theorem scanPartsF_shape :
    ∀ (fuel : Nat) (prev : Option Char) (cs : List Char) (s : String),
      s ∈ scanPartsF fuel prev cs → partShape s := by
  intro fuel
  induction fuel with
  | zero => intro _ _ _ h; cases h
  | succ n ih =>
    intro prev cs s hs
    cases cs with
    | nil => cases hs
    | cons c rest =>
      simp only [scanPartsF] at hs
      cases hm : matchLenAt prev (c :: rest) 7 with
      | none =>
        rw [hm] at hs
        exact ih _ _ _ hs
      | some m =>
        rw [hm] at hs
        rcases List.mem_cons.mp hs with rfl | hs'
        · exact matchLenAt_shape hm
        · exact ih _ _ _ hs'

theorem rankedMaterials_spec (docs : List Doc) :
    (rankedMaterials docs).length ≤ TOP_K ∧
    (rankedMaterials docs).Pairwise (fun a b => b.count ≤ a.count) ∧
    (∀ m ∈ rankedMaterials docs, m.count = (matValues docs).count m.code) ∧
    (∀ a b, [a, b] <+ rankedMaterials docs → a.count = b.count →
      (matValues docs).indexOf a.code < (matValues docs).indexOf b.code) := by
  refine ⟨List.length_take_le _ _, ?_, ?_, ?_⟩
  · exact (sortDesc_pairwise MatDetail.count _).sublist (List.take_sublist _ _)
  · intro m hm
    exact (material_details_inv docs).2 m
      ((sortDesc_perm MatDetail.count _).subset ((List.take_sublist _ _).subset hm))
  · intro a b hab heq
    have hmd : [a, b] <+ material_details docs :=
      sortDesc_take_tie MatDetail.count (material_details_nodup docs) hab heq
    have hfs : [a.code, b.code] <+ firstSeen (matValues docs) := by
      have := hmd.map MatDetail.code
      rwa [(material_details_inv docs).1] at this
    have := (firstSeen_pairwise_indexOf (matValues docs)).sublist hfs
    rw [List.pairwise_cons] at this
    exact this.1 b.code (by simp)

/-! ## Claim theorems -/

/-- C2: `is_technical_query` returns Technical exactly when the lowercased
text contains one of the fixed technical keywords as a substring, or matches
the numeric-code pattern `\b\d{3,10}(?:-\d{3})?\b`, or matches
`station\s*\d+`; in every other case — including queries with fewer than 3
whitespace-delimited tokens and the zero-token query, whose branch returns
the same value as the final one — it returns Casual.  As a Lean function it
is pure and deterministic by construction. -/
theorem classify_iff :
    (∀ q : String, is_technical_query q =
      (kwHit (pyLower q) || hasCodeSearch (pyLower q) || hasStationSearch (pyLower q))) ∧
    is_technical_query "" = false := by
  constructor
  · intro q
    simp only [is_technical_query]
    cases h1 : kwHit (pyLower q) <;> cases h2 : hasCodeSearch (pyLower q) <;>
      cases h3 : hasStationSearch (pyLower q) <;> simp [h1, h2, h3]
  · decide

/-- C8: the k-NN search size is `3 * TOP_N_DOCS` when part numbers were
extracted from the query, else `2 * TOP_N_DOCS`, with `TOP_N_DOCS = 30`;
`retrieve_semantic` consults the search function only at that size. -/
theorem overfetch_size (query : String) (s₁ s₂ : Nat → List Doc)
    (h : s₁ (search_k query TOP_N_DOCS) = s₂ (search_k query TOP_N_DOCS)) :
    retrieve_semantic query s₁ = retrieve_semantic query s₂ ∧
    (extract_part_numbers query ≠ [] → search_k query TOP_N_DOCS = 3 * TOP_N_DOCS) ∧
    (extract_part_numbers query = [] → search_k query TOP_N_DOCS = 2 * TOP_N_DOCS) ∧
    TOP_N_DOCS = 30 := by
  refine ⟨?_, ?_, ?_, rfl⟩
  · simp only [retrieve_semantic, h]
  · intro hp
    rw [search_k, if_pos hp]
    decide
  · intro hp
    rw [search_k, if_neg (by simp [hp])]
    decide

/-- Witness for C8: a query mentioning a part number gets the triple
overfetch size. -/
theorem overfetch_size_witness :
    search_k "part 10003939 broken" TOP_N_DOCS = 3 * TOP_N_DOCS :=
  (overfetch_size "part 10003939 broken" (fun _ => []) (fun _ => []) rfl).2.1 (by decide)

/-- C7: `_extract_part_numbers` returns the non-overlapping matches of
`\b\d{7,10}(?:-\d{3})?\b` in order of appearance with duplicates preserved
(the scan emits each match and resumes after it); on the example of the spec the
2-digit "12" is not matched, and every string it ever returns has the
claimed shape: 7–10 digits optionally followed by a dash and exactly three
digits. -/
theorem extract_part_numbers_spec :
    extract_part_numbers "part 10003939 failed at station 12" = ["10003939"] ∧
    ∀ (q s : String), s ∈ extract_part_numbers q → partShape s := by
  refine ⟨by decide, ?_⟩
  intro q s hs
  exact scanPartsF_shape _ _ _ _ hs

/-- Witness for C7: the extracted example part number has the pattern
shape. -/
theorem extract_part_numbers_witness : partShape "10003939" :=
  extract_part_numbers_spec.2 "part 10003939 failed at station 12" "10003939" (by decide)

/-- C1 counterexample: on a query whose k-NN search returns zero candidates
the code returns a dict with no `retrieved_count` key at all (not
`retrieved_count = 0`), and the four category keys hold plain empty lists,
not "not found" markers; `common_stations` and `date_range` are absent.
This refutes the claim that every category is present in marker form with
`retrieved_count = 0`. -/
theorem zero_candidates_counterexample :
    (retrieve_semantic "part failure" (fun _ => [])).retrieved_count = none ∧
    (retrieve_semantic "part failure" (fun _ => [])).action_codes = [] ∧
    (retrieve_semantic "part failure" (fun _ => [])).common_stations = none ∧
    (retrieve_semantic "part failure" (fun _ => [])).date_range = none ∧
    ¬((retrieve_semantic "part failure" (fun _ => [])).retrieved_count = some 0 ∧
      (retrieve_semantic "part failure" (fun _ => [])).action_codes =
        [Entry.note "No action codes found"]) := by
  decide

/-- C1 amended: when the k-NN search returns zero candidates,
`retrieve_semantic` returns (without raising — the model is total) a result
whose `message` is set, whose `action_codes`, `failure_codes`, `materials`
and `recurring_serials` are plain empty lists, and whose `retrieved_count`,
`mentioned_parts`, `common_stations` and `date_range` keys are absent. -/
theorem zero_candidates_amended (query : String) (search : Nat → List Doc)
    (h : search (search_k query TOP_N_DOCS) = []) :
    retrieve_semantic query search =
      { message := some "No relevant historical data found.",
        retrieved_count := none,
        query_context := query,
        mentioned_parts := none,
        action_codes := [],
        failure_codes := [],
        materials := [],
        recurring_serials := [],
        common_stations := none,
        date_range := none } := by
  simp [retrieve_semantic, retrieveFrom, h]

/-- C6: when part numbers are mentioned and the k-NN search is nonempty,
the candidates are filtered to those whose `part_number` contains a
mentioned part as substring; the filtered list is used untruncated when
nonempty, and exactly when it is empty the unfiltered list truncated to
`TOP_N_DOCS` is used instead.  The query never fails (the model is a total
function) and `retrieved_count` reports the selected candidates. -/
theorem part_filter_fallback (query : String) (search : Nat → List Doc)
    (hp : extract_part_numbers query ≠ [])
    (hr : search (search_k query TOP_N_DOCS) ≠ []) :
    (partFilter (extract_part_numbers query) (search (search_k query TOP_N_DOCS)) ≠ [] →
      usedCandidates query (search (search_k query TOP_N_DOCS)) =
        partFilter (extract_part_numbers query) (search (search_k query TOP_N_DOCS)) ∧
      ∀ d ∈ usedCandidates query (search (search_k query TOP_N_DOCS)),
        ∃ p ∈ extract_part_numbers query, containsStr (cleanValue d.part_number) p = true) ∧
    (partFilter (extract_part_numbers query) (search (search_k query TOP_N_DOCS)) = [] →
      usedCandidates query (search (search_k query TOP_N_DOCS)) =
        (search (search_k query TOP_N_DOCS)).take TOP_N_DOCS) ∧
    (retrieve_semantic query search).retrieved_count =
      some (usedCandidates query (search (search_k query TOP_N_DOCS))).length := by
  refine ⟨?_, ?_, ?_⟩
  · intro hf
    constructor
    · simp [usedCandidates, selectCandidates, hp, hf]
    · intro d hd
      rw [show usedCandidates query (search (search_k query TOP_N_DOCS)) =
            partFilter (extract_part_numbers query) (search (search_k query TOP_N_DOCS)) by
          simp [usedCandidates, selectCandidates, hp, hf]] at hd
      have := (List.mem_filter.mp hd).2
      exact List.any_eq_true.mp this
  · intro hf
    simp [usedCandidates, selectCandidates, hp, hf]
  · simp only [retrieve_semantic, retrieveFrom, if_neg hr, usedCandidates]

/-- Witness for C6 at a part-number query whose filter matches all 90
overfetched candidates. -/
theorem part_filter_fallback_witness :
    (retrieve_semantic "10003939" (fun k => List.replicate k partDoc)).retrieved_count =
      some (usedCandidates "10003939"
        ((fun k => List.replicate k partDoc) (search_k "10003939" TOP_N_DOCS))).length :=
  (part_filter_fallback "10003939" (fun k => List.replicate k partDoc)
    (by decide) (by decide)).2.2

/-- C3 counterexample: for a candidate set with no station values the
`common_stations` category of the output is a plain unmarked empty list
(`some []`), while the other categories do get explicit marker entries —
refuting "this holds for ... stations ... alike". -/
theorem stations_unmarked_counterexample :
    (retrieveFrom "station issue" [emptyDoc]).common_stations = some [] ∧
    (retrieveFrom "station issue" [emptyDoc]).action_codes =
      [Entry.note "No action codes found"] ∧
    (retrieveFrom "station issue" [emptyDoc]).recurring_serials =
      [Entry.note "No recurring serials detected"] := by
  decide

/-- C3 amended: on the aggregation path, `action_codes`, `failure_codes`,
`materials` and `recurring_serials` are always nonempty and hold exactly the
explicit marker entry when their category is empty after reduction, and the
date range is always present (with "N/A" sentinels when no dates exist);
`common_stations`, however, is a plain list that is empty and unmarked when
no station values exist. -/
theorem marker_policy (query : String) (results0 : List Doc) (hne : results0 ≠ []) :
    (retrieveFrom query results0).action_codes ≠ [] ∧
    (retrieveFrom query results0).failure_codes ≠ [] ∧
    (retrieveFrom query results0).materials ≠ [] ∧
    (retrieveFrom query results0).recurring_serials ≠ [] ∧
    (actionValues (usedCandidates query results0) = [] →
      (retrieveFrom query results0).action_codes = [Entry.note "No action codes found"]) ∧
    (failureValues (usedCandidates query results0) = [] →
      (retrieveFrom query results0).failure_codes = [Entry.note "No failure codes found"]) ∧
    (matValues (usedCandidates query results0) = [] →
      (retrieveFrom query results0).materials = [MatEntry.note "No materials recorded"]) ∧
    ((∀ s, (serialValues (usedCandidates query results0)).count s ≤ 1) →
      (retrieveFrom query results0).recurring_serials =
        [Entry.note "No recurring serials detected"]) ∧
    (stationValues (usedCandidates query results0) = [] →
      (retrieveFrom query results0).common_stations = some []) ∧
    (retrieveFrom query results0).date_range =
      some ((pyMin (dateValues (usedCandidates query results0))).getD "N/A",
            (pyMax (dateValues (usedCandidates query results0))).getD "N/A") := by
  unfold usedCandidates
  have hranked : ∀ vals k, vals = [] → rankedPairs vals k = ([] : List (String × Nat)) := by
    intro vals k h
    subst h
    simp [rankedPairs, counterItems, firstSeen, sortDesc]
  have hrec : (∀ s, (serialValues (selectCandidates (extract_part_numbers query) results0
      TOP_N_DOCS)).count s ≤ 1) →
      recurringPairs (serialValues (selectCandidates (extract_part_numbers query) results0
        TOP_N_DOCS)) = [] := by
    intro hle
    rw [recurringPairs, List.filter_eq_nil_iff]
    intro p hp
    have hmem : p ∈ counterItems (serialValues (selectCandidates
        (extract_part_numbers query) results0 TOP_N_DOCS)) :=
      (sortDesc_perm Prod.snd _).subset ((List.take_sublist _ _).subset hp)
    have := (counterItems_count hmem).1
    have hc := hle p.1
    simp only [decide_eq_true_eq]
    omega
  have hmat : matValues (selectCandidates (extract_part_numbers query) results0
      TOP_N_DOCS) = [] →
      rankedMaterials (selectCandidates (extract_part_numbers query) results0
        TOP_N_DOCS) = [] := by
    intro h
    have hmap := (material_details_inv (selectCandidates (extract_part_numbers query)
      results0 TOP_N_DOCS)).1
    rw [h] at hmap
    have : material_details (selectCandidates (extract_part_numbers query) results0
        TOP_N_DOCS) = [] := by
      simpa [firstSeen] using List.map_eq_nil_iff.mp hmap
    rw [rankedMaterials, this]
    simp [sortDesc]
  refine ⟨?_, ?_, ?_, ?_, ?_, ?_, ?_, ?_, ?_, ?_⟩ <;>
    simp only [retrieveFrom, if_neg hne]
  · split <;> simp_all
  · split <;> simp_all
  · split <;> simp_all
  · split <;> simp_all
  · intro h
    rw [if_pos (hranked _ _ h)]
  · intro h
    rw [if_pos (hranked _ _ h)]
  · intro h
    rw [if_pos (hmat h)]
  · intro h
    rw [if_pos (hrec h)]
  · intro h
    rw [hranked _ _ h]

/-- Witness for the amended C3: the all-empty candidate gets markers
for action codes. -/
theorem marker_policy_witness :
    (retrieveFrom "defect trend" [emptyDoc]).action_codes =
      [Entry.note "No action codes found"] :=
  (marker_policy "defect trend" [emptyDoc] (by decide)).2.2.2.2.1 (by decide)

/-- C4: the ranked action-code, failure-code and materials lists are
truncated to `TOP_K = 3`, sorted by weakly decreasing count (strictly
descending up to ties), every reported count is the true occurrence count,
and ties in count are resolved by first appearance in the candidate-order
value sequence: of two tied entries the one whose value occurs earlier has
the smaller first-occurrence index. -/
theorem ranking_spec (docs : List Doc) :
    ((rankedPairs (actionValues docs) TOP_K).length ≤ TOP_K ∧
     (rankedPairs (actionValues docs) TOP_K).Pairwise (fun a b => b.2 ≤ a.2) ∧
     (∀ p ∈ rankedPairs (actionValues docs) TOP_K, p.2 = (actionValues docs).count p.1) ∧
     (∀ a b, [a, b] <+ rankedPairs (actionValues docs) TOP_K → a.2 = b.2 →
       (actionValues docs).indexOf a.1 < (actionValues docs).indexOf b.1)) ∧
    ((rankedPairs (failureValues docs) TOP_K).length ≤ TOP_K ∧
     (rankedPairs (failureValues docs) TOP_K).Pairwise (fun a b => b.2 ≤ a.2) ∧
     (∀ p ∈ rankedPairs (failureValues docs) TOP_K, p.2 = (failureValues docs).count p.1) ∧
     (∀ a b, [a, b] <+ rankedPairs (failureValues docs) TOP_K → a.2 = b.2 →
       (failureValues docs).indexOf a.1 < (failureValues docs).indexOf b.1)) ∧
    ((rankedMaterials docs).length ≤ TOP_K ∧
     (rankedMaterials docs).Pairwise (fun a b => b.count ≤ a.count) ∧
     (∀ m ∈ rankedMaterials docs, m.count = (matValues docs).count m.code) ∧
     (∀ a b, [a, b] <+ rankedMaterials docs → a.count = b.count →
       (matValues docs).indexOf a.code < (matValues docs).indexOf b.code)) ∧
    TOP_K = 3 := by
  refine ⟨⟨(rankedPairs_spec _ _).1, (rankedPairs_spec _ _).2.1,
      fun p hp => ((rankedPairs_spec _ _).2.2.1 p hp).1, (rankedPairs_spec _ _).2.2.2⟩,
    ⟨(rankedPairs_spec _ _).1, (rankedPairs_spec _ _).2.1,
      fun p hp => ((rankedPairs_spec _ _).2.2.1 p hp).1, (rankedPairs_spec _ _).2.2.2⟩,
    ⟨(rankedMaterials_spec docs).1, (rankedMaterials_spec docs).2.1,
      (rankedMaterials_spec docs).2.2.1, (rankedMaterials_spec docs).2.2.2⟩, rfl⟩

/-- Witness for C4: with two action codes of equal count first seen in the
order A1, A2, the ranking keeps A1 first and A1 indeed occurs earlier. -/
theorem ranking_spec_witness :
    (actionValues docsTie).indexOf "A1" < (actionValues docsTie).indexOf "A2" := by
  have h := (ranking_spec docsTie).1.2.2.2 ("A1", 2) ("A2", 2)
  have heq : rankedPairs (actionValues docsTie) TOP_K = [("A1", 2), ("A2", 2)] := by decide
  exact h (by rw [heq]) rfl

/-- C5: the recurring-serials output equals the descending-sorted list of
serials restricted to counts strictly greater than 1, truncated to at most
10 entries (take-then-filter in the code commutes with filter-then-take
because the list is sorted); every entry has its true count, every serial
with count above 1 appears before truncation, and the 5-candidate
example yields exactly the one entry ("S1", 2). -/
theorem recurring_serials_spec (docs : List Doc) :
    recurringPairs (serialValues docs) =
      ((sortDesc Prod.snd (counterItems (serialValues docs))).filter
        (fun p => decide (1 < p.2))).take 10 ∧
    (∀ p ∈ recurringPairs (serialValues docs),
      1 < p.2 ∧ p.2 = (serialValues docs).count p.1) ∧
    (recurringPairs (serialValues docs)).Pairwise (fun a b => b.2 ≤ a.2) ∧
    (recurringPairs (serialValues docs)).length ≤ 10 ∧
    (∀ s, 1 < (serialValues docs).count s →
      (s, (serialValues docs).count s) ∈
        (sortDesc Prod.snd (counterItems (serialValues docs))).filter
          (fun p => decide (1 < p.2))) ∧
    recurringPairs (serialValues exDocs5) = [("S1", 2)] := by
  have hcomm := take_filter_of_sortedDesc Prod.snd 1
    (sortDesc Prod.snd (counterItems (serialValues docs)))
    (sortDesc_pairwise Prod.snd _) 10
  refine ⟨hcomm, ?_, ?_, ?_, ?_, by decide⟩
  · intro p hp
    have h1 : (1 < p.2) := by
      have := (List.mem_filter.mp hp).2
      simpa using this
    have hmem : p ∈ counterItems (serialValues docs) :=
      (sortDesc_perm Prod.snd _).subset
        ((List.take_sublist _ _).subset (List.mem_filter.mp hp).1)
    exact ⟨h1, (counterItems_count hmem).1⟩
  · exact ((sortDesc_pairwise Prod.snd _).sublist (List.take_sublist _ _)).sublist
      (List.filter_sublist _)
  · show (((sortDesc Prod.snd (counterItems (serialValues docs))).take 10).filter
      (fun p => decide (1 < p.2))).length ≤ 10
    rw [hcomm]
    exact List.length_take_le _ _
  · intro s hs
    have hsmem : s ∈ serialValues docs := by
      have := hs
      exact List.count_pos_iff.mp (by omega)
    refine List.mem_filter.mpr ⟨?_, by simpa using hs⟩
    exact mem_sortDesc.mpr (counterItems_complete hsmem)

/-- Witness for C5: the entry of the 5-candidate example has count 2 > 1. -/
theorem recurring_serials_witness :
    1 < (("S1", 2) : String × Nat).2 ∧
      (("S1", 2) : String × Nat).2 = (serialValues exDocs5).count "S1" :=
  (recurring_serials_spec exDocs5).2.1 ("S1", 2)
    (by rw [(recurring_serials_spec exDocs5).2.2.2.2.2]; exact List.mem_singleton.mpr rfl)

/-- C9: the context formatter is a pure function — equal aggregation
results give byte-identical text — and it performs no aggregation of its
own: each rendered action-code and recurring-serial line embeds the count
verbatim from the input entry (the section is rendered whenever the list
head is an `item` entry). -/
theorem formatter_spec :
    (∀ a b : RetrievalResult, a = b → format_context_for_llm a = format_context_for_llm b) ∧
    (∀ (agg : RetrievalResult) (c : String) (n : Nat),
      (∃ c0 n0 t, agg.action_codes = Entry.item c0 n0 :: t) →
      Entry.item c n ∈ agg.action_codes →
      ("  • " ++ c ++ " (seen " ++ toString n ++ "x in analyzed records)") ∈
        formatParts agg) ∧
    (∀ (agg : RetrievalResult) (s : String) (n : Nat),
      (∃ s0 n0 t, agg.recurring_serials = Entry.item s0 n0 :: t) →
      Entry.item s n ∈ agg.recurring_serials →
      ("  • Serial " ++ s ++ " appeared " ++ toString n ++ "x") ∈ formatParts agg) := by
  refine ⟨fun a b h => by rw [h], ?_, ?_⟩
  · rintro agg c n ⟨c0, n0, t, hhead⟩ hmem
    have hmap : renderCode (Entry.item c n) ∈ agg.action_codes.map renderCode :=
      List.mem_map_of_mem _ hmem
    simp only [formatParts, hhead] at hmap ⊢
    exact List.mem_append_left _ (List.mem_append_left _ (List.mem_append_left _
      (List.mem_append_left _ (List.mem_append_left _ (List.mem_append_left _
        (List.mem_append_right _ hmap))))))
  · rintro agg s n ⟨s0, n0, t, hhead⟩ hmem
    have hmap : renderSerial (Entry.item s n) ∈ agg.recurring_serials.map renderSerial :=
      List.mem_map_of_mem _ hmem
    simp only [formatParts, hhead] at hmap ⊢
    exact List.mem_append_left _ (List.mem_append_left _ (List.mem_append_right _
      (List.mem_cons_of_mem _ hmap)))

/-- Witness for C9: a concrete aggregation output renders its action-code
entry with its own count. -/
theorem formatter_spec_witness :
    ("  • " ++ "A1" ++ " (seen " ++ toString 1 ++ "x in analyzed records)") ∈
      formatParts (retrieveFrom "defect in unit" [docA "A1"]) :=
  formatter_spec.2.1 (retrieveFrom "defect in unit" [docA "A1"]) "A1" 1
    ⟨"A1", 1, [], by decide⟩ (by decide)

/-- C10: with a search function returning at most `k` results for size `k`,
the retrieved count on a nonempty search equals the size of the selected
candidate set; that size is bounded by `3 * TOP_N_DOCS`, and on the no-parts
and filter-exhausted paths by `TOP_N_DOCS`; a part-number query whose filter
matches all 90 overfetched candidates yields `retrieved_count = 90`,
exceeding `TOP_N_DOCS = 30`. -/
theorem retrieved_count_bounds (query : String) (search : Nat → List Doc)
    (hs : ∀ k, (search k).length ≤ k) :
    (search (search_k query TOP_N_DOCS) ≠ [] →
      (retrieve_semantic query search).retrieved_count =
        some (usedCandidates query (search (search_k query TOP_N_DOCS))).length) ∧
    (usedCandidates query (search (search_k query TOP_N_DOCS))).length ≤ 3 * TOP_N_DOCS ∧
    (extract_part_numbers query = [] →
      (usedCandidates query (search (search_k query TOP_N_DOCS))).length ≤ TOP_N_DOCS) ∧
    (partFilter (extract_part_numbers query) (search (search_k query TOP_N_DOCS)) = [] →
      (usedCandidates query (search (search_k query TOP_N_DOCS))).length ≤ TOP_N_DOCS) ∧
    (retrieve_semantic "10003939" (fun k => List.replicate k partDoc)).retrieved_count =
      some 90 ∧
    TOP_N_DOCS < 90 := by
  have hk : search_k query TOP_N_DOCS ≤ 3 * TOP_N_DOCS := by
    rw [search_k]
    split
    · decide
    · decide
  have hlen := hs (search_k query TOP_N_DOCS)
  refine ⟨?_, ?_, ?_, ?_, by decide, by decide⟩
  · intro hr
    simp only [retrieve_semantic, retrieveFrom, if_neg hr, usedCandidates]
  · simp only [usedCandidates, selectCandidates, partFilter]
    split
    · split
      · exact le_trans (le_trans (List.length_filter_le _ _) hlen) hk
      · exact le_trans (List.length_take_le _ _) (by decide)
    · exact le_trans (List.length_take_le _ _) (by decide)
  · intro hp
    simp only [usedCandidates, selectCandidates]
    rw [if_neg (by simp [hp])]
    exact List.length_take_le _ _
  · intro hf
    simp only [usedCandidates, selectCandidates]
    split
    · rw [if_neg (by simp [hf])]
      exact List.length_take_le _ _
    · exact List.length_take_le _ _

/-- Witness for C10 at a concrete query and an empty (hence bounded)
search function. -/
theorem retrieved_count_bounds_witness :
    (usedCandidates "hello" ((fun _ => ([] : List Doc)) (search_k "hello" TOP_N_DOCS))).length ≤
      3 * TOP_N_DOCS :=
  (retrieved_count_bounds "hello" (fun _ => []) (fun k => by simp)).2.1

/-- Witness for the amended C1 at a concrete query and empty search. -/
theorem zero_candidates_amended_witness :
    retrieve_semantic "station 9 error" (fun _ => []) =
      { message := some "No relevant historical data found.",
        retrieved_count := none,
        query_context := "station 9 error",
        mentioned_parts := none,
        action_codes := [],
        failure_codes := [],
        materials := [],
        recurring_serials := [],
        common_stations := none,
        date_range := none } :=
  zero_candidates_amended "station 9 error" (fun _ => []) rfl

end Chatbot
